import Mathlib

/-!
Verification of the file-I/O utility module `src/cnnClassifier/utils/common.py`.

The module is a collection of nine stateless wrappers around standard
file-format operations (YAML read, directory creation, JSON save/load,
binary save/load, file size, base64 image decode/encode).  We model the
filesystem explicitly as a finite map from path strings to byte contents,
plus a set of present directories; each operation is translated to a pure
Lean function returning its result (an `Except` when the Python function can
raise) together with the list of log messages it emits.

External format libraries are handled as follows:
* `json.dump(..., indent=4)` and `json.load` are modelled concretely by an
  executable serializer `dumpVal` and a fueled recursive-descent
  parser `parseVal` over byte lists, restricted to the JSON fragment
  without floats and with strings of code points below 0x10000 (the
  serializer follows CPython's `ensure_ascii` escaping).
* `base64.b64encode` / `b64decode` are modelled concretely over byte lists
  (the decoder is strict: it requires well-formed quads, whereas CPython
  silently drops some junk characters; no claim depends on the difference).
* `yaml.safe_load` and `joblib` are arbitrary: the corresponding wrappers
  take the parsing / serialization function as an explicit parameter, since
  the wrapper code under verification treats them as black boxes.

Machine floats appear only in `get_size` (`round(size / 1024)`); since every
quotient `n / 1024` with realistic `n` is exactly representable, Python's
`round` is faithfully modelled by exact round-half-to-even on naturals.
-/

/-- Byte/code-point sequence of a Lean `String` (ASCII for all strings that
appear in the module's messages). -/
def strBytes (s : String) : List Nat := s.data.map Char.toNat

/-- Logging levels of the process-wide logger.  `common.py` only ever calls
`logger.info`. -/
inductive LogLevel
  | info
  | warning
  | error
  deriving DecidableEq, Repr

/-- One emitted log record: a level and the rendered message bytes. -/
structure LogEntry where
  level : LogLevel
  msg : List Nat
  deriving DecidableEq, Repr

/-- Error taxonomy of the module: `FileNotFoundError`, `ValueError` and
`OSError`, each carrying the rendered message. -/
inductive Err
  | notFound (msg : List Nat)
  | valueError (msg : List Nat)
  | osError (msg : List Nat)
  deriving DecidableEq, Repr

/-- The external state: files (path to byte content, later bindings shadow
earlier ones) and the set of directories present. -/
structure FS where
  files : List (String × List Nat)
  dirs : List String

/-- `open(path)` succeeding: first binding for `path`, if any. -/
def FS.read (fs : FS) (p : String) : Option (List Nat) :=
  fs.files.lookup p

/-- `open(path, "w")` / `open(path, "wb")` followed by a full write. -/
def FS.write (fs : FS) (p : String) (c : List Nat) : FS :=
  { fs with files := (p, c) :: fs.files }

/-- A constructed `python-box` `ConfigBox` around a parsed document.  Its
attribute access is, by the library's construction, the same operation as
key access.  Construction from a parsed document is *not* total:
`Box.__init__` raises `BoxValueError` (imported at the top of `common.py`)
unless its argument is a mapping or an iterable of key-value pairs; the
constructor is modelled by `configBoxOf` (YAML) and `jsonBoxOf` (JSON)
below, and the wrappers route the parsed document through it. -/
structure ConfigBox (α : Type) where
  val : α
  deriving DecidableEq, Repr

/-! ### YAML documents (`yaml.safe_load` results) -/

/-- Values `yaml.safe_load` can produce, restricted to the fragment without
floats (no claim involves float-valued YAML). -/
inductive YamlVal
  | null
  | bool (b : Bool)
  | int (n : Int)
  | str (s : List Nat)
  | seq (xs : List YamlVal)
  | map (kvs : List (List Nat × YamlVal))

/-- Python truthiness of a parsed YAML document, as tested by
`if not content` in `read_yaml`. -/
def pyFalsy : YamlVal → Bool
  | .null => true
  | .bool b => !b
  | .int n => n = 0
  | .str s => s.isEmpty
  | .seq xs => xs.isEmpty
  | .map kvs => kvs.isEmpty

/-- Key lookup in a parsed YAML document (only mappings have keys). -/
def yamlGet (v : YamlVal) (k : List Nat) : Option YamlVal :=
  match v with
  | .map kvs => kvs.lookup k
  | _ => none

/-- `box[key]` on a YAML `ConfigBox`. -/
def ConfigBox.getKey (b : ConfigBox YamlVal) (k : List Nat) : Option YamlVal :=
  yamlGet b.val k

/-- `box.key` on a YAML `ConfigBox`: `python-box` delegates attribute access
to item access. -/
def ConfigBox.getAttr (b : ConfigBox YamlVal) (k : List Nat) : Option YamlVal :=
  ConfigBox.getKey b k

/-- One element of an iterable handed to the `python-box` constructor,
unpacked as a key-value pair (`for k, v in arg`).  The model covers the
pair shape representable in the string-keyed `YamlVal.map`: a two-element
sequence whose first component is a string.  (The library also unpacks
other two-element iterables and accepts non-string hashable keys; those
corners are not representable here and no claim touches them.) -/
def yamlPairElem : YamlVal → Option (List Nat × YamlVal)
  | .seq [.str k, v] => some (k, v)
  | _ => none

def yamlSeqPairs : List YamlVal → Option (List (List Nat × YamlVal))
  | [] => some []
  | e :: es =>
    match yamlPairElem e, yamlSeqPairs es with
    | some p, some ps => some (p :: ps)
    | _, _ => none

/-- `ConfigBox(content)` on a parsed YAML document, modelled from
`Box.__init__` of `python-box`: a mapping is wrapped; a string raises
`BoxValueError` ("Cannot extrapolate Box from string"); a sequence is
consumed as key-value pairs and fails to unpack otherwise (CPython raises
TypeError or ValueError there depending on the element; the model folds
both into the unpack message); any other value raises `BoxValueError`
("First argument must be mapping or iterable").  `BoxValueError` is a
`ValueError` subclass, so the failures surface as `ValueError`s. -/
def configBoxOf : YamlVal → Except (List Nat) (ConfigBox YamlVal)
  | .map kvs => .ok ⟨.map kvs⟩
  | .str _ => .error (strBytes "Cannot extrapolate Box from string")
  | .seq xs =>
    match yamlSeqPairs xs with
    | some ps => .ok ⟨.map ps⟩
    | none => .error (strBytes "not enough values to unpack (expected 2)")
  | _ => .error (strBytes "First argument must be mapping or iterable")

/-! ### `read_yaml` -/

def yamlNotFoundMsg (p : String) : List Nat :=
  strBytes "YAML file not found: " ++ strBytes p

def yamlEmptyMsg (p : String) : List Nat :=
  strBytes "YAML file at " ++ strBytes p ++ strBytes " is empty"

def yamlLoadedMsg (p : String) : List Nat :=
  strBytes "YAML file: " ++ strBytes p ++ strBytes " loaded successfully"

def yamlParseErrMsg (p : String) (e : List Nat) : List Nat :=
  strBytes "Error parsing YAML file " ++ strBytes p ++ strBytes ": " ++ e

/-- `read_yaml`, parameterized by the `yaml.safe_load` parsing function
(`.ok none` models an empty stream / `null` document, `.error e` a
`yaml.YAMLError` with diagnostic `e`).  Note the source order: `logger.info`
runs before `return ConfigBox(content)`, so when the constructor raises
(truthy non-mapping document) the success message has already been emitted
and the `BoxValueError` propagates unchanged through
`except Exception as e: raise e`. -/
def read_yaml (parse : List Nat → Except (List Nat) (Option YamlVal))
    (p : String) (fs : FS) : Except Err (ConfigBox YamlVal) × List LogEntry :=
  match fs.read p with
  | none => (.error (.notFound (yamlNotFoundMsg p)), [])
  | some c =>
    match parse c with
    | .error e => (.error (.valueError (yamlParseErrMsg p e)), [])
    | .ok none => (.error (.valueError (yamlEmptyMsg p)), [])
    | .ok (some v) =>
      if pyFalsy v then (.error (.valueError (yamlEmptyMsg p)), [])
      else
        match configBoxOf v with
        | .ok b => (.ok b, [⟨.info, yamlLoadedMsg p⟩])
        | .error e => (.error (.valueError e), [⟨.info, yamlLoadedMsg p⟩])

/-! ### `create_directories` -/

/-- Split a path on `/` separators. -/
def splitOnSlash : List Char → List (List Char)
  | [] => [[]]
  | c :: cs =>
    let r := splitOnSlash cs
    if c = '/' then [] :: r
    else
      match r with
      | [] => [[c]]
      | g :: gs => (c :: g) :: gs

/-- The chain of directories `os.makedirs` brings into existence for one
path: every component-prefix of the path. -/
def pathPrefixes (p : String) : List String :=
  match splitOnSlash p.data with
  | [] => []
  | c :: cs =>
    ((cs.foldl
        (fun (acc : List (List Char)) comp =>
          match acc with
          | [] => [comp]
          | prev :: _ => (prev ++ '/' :: comp) :: acc)
        [c]).reverse).map fun l => ⟨l⟩

/-- Record a directory as present; an already-present directory is left
alone (`exist_ok=True`). -/
def dirInsert (ds : List String) (d : String) : List String :=
  if d ∈ ds then ds else ds ++ [d]

/-- `os.makedirs(p, exist_ok=True)` on the directory set. -/
def mkdirAll (ds : List String) (p : String) : List String :=
  (pathPrefixes p).foldl dirInsert ds

def mkdirMsg (p : String) : List Nat :=
  strBytes "Created directory at: " ++ strBytes p

/-- `create_directories`: sequentially ensure each path, logging one info
message per path when `verbose`. -/
def create_directories (paths : List String) (verbose : Bool) (fs : FS) :
    FS × List LogEntry :=
  paths.foldl
    (fun st p =>
      ({ st.1 with dirs := mkdirAll st.1.dirs p },
        st.2 ++ if verbose then [⟨.info, mkdirMsg p⟩] else []))
    (fs, [])

/-! ### JSON documents (`json.dump(data, f, indent=4)` / `json.load`) -/

/-- JSON-serializable Python values, without floats.  Strings are sequences
of Unicode code points. -/
inductive JsonVal
  | null
  | bool (b : Bool)
  | int (i : Int)
  | str (s : List Nat)
  | arr (xs : List JsonVal)
  | obj (kvs : List (List Nat × JsonVal))

/-- Code points on which the modelled serializer/parser pair is exact:
the Basic Multilingual Plane (code points above it are serialized with
surrogate pairs, which the model does not cover). -/
def wfStr (s : List Nat) : Bool := s.all fun cp => cp < 65536

mutual

/-- Values in the modelled domain: BMP-only strings and, mirroring Python
dicts, duplicate-free keys at every object node. -/
def WFb : JsonVal → Bool
  | .null => true
  | .bool _ => true
  | .int _ => true
  | .str s => wfStr s
  | .arr xs => WFbItems xs
  | .obj kvs => decide ((kvs.map Prod.fst).Nodup) && WFbMems kvs

def WFbItems : List JsonVal → Bool
  | [] => true
  | x :: xs => WFb x && WFbItems xs

def WFbMems : List (List Nat × JsonVal) → Bool
  | [] => true
  | (k, v) :: ms => wfStr k && WFb v && WFbMems ms

end

/-- 4-space indentation prefix at nesting depth `d`. -/
def ind (d : Nat) : List Nat := List.replicate (4 * d) 32

/-- Lowercase hex digit, as CPython's `\uXXXX` escapes use. -/
def hexDigit (n : Nat) : Nat := if n < 10 then 48 + n else 87 + n

/-- CPython `ensure_ascii` escaping of one code point inside a JSON string
literal. -/
def escCp (cp : Nat) : List Nat :=
  if cp = 34 then [92, 34]
  else if cp = 92 then [92, 92]
  else if cp = 8 then [92, 98]
  else if cp = 9 then [92, 116]
  else if cp = 10 then [92, 110]
  else if cp = 12 then [92, 102]
  else if cp = 13 then [92, 114]
  else if 32 ≤ cp ∧ cp ≤ 126 then [cp]
  else [92, 117, hexDigit (cp / 4096 % 16), hexDigit (cp / 256 % 16),
        hexDigit (cp / 16 % 16), hexDigit (cp % 16)]

/-- Serialized JSON string literal. -/
def dumpStr (s : List Nat) : List Nat := [34] ++ (s.map escCp).flatten ++ [34]

/-- Decimal digits of a natural number, most significant first. -/
def dumpNat (n : Nat) : List Nat :=
  if n = 0 then [48] else (Nat.digits 10 n).reverse.map fun d => 48 + d

/-- Python `repr` of an integer. -/
def dumpInt (i : Int) : List Nat :=
  if i < 0 then 45 :: dumpNat i.natAbs else dumpNat i.natAbs

mutual

/-- `json.dump(.., indent=4)` output at nesting depth `d`, as bytes (the
output is pure ASCII thanks to `ensure_ascii`). -/
def dumpVal : Nat → JsonVal → List Nat
  | _, .null => [110, 117, 108, 108]
  | _, .bool true => [116, 114, 117, 101]
  | _, .bool false => [102, 97, 108, 115, 101]
  | _, .int i => dumpInt i
  | _, .str s => dumpStr s
  | _, .arr [] => [91, 93]
  | d, .arr (x :: xs) =>
    [91, 10] ++ ind (d + 1) ++ dumpSeq (d + 1) x xs ++ [10] ++ ind d ++ [93]
  | _, .obj [] => [123, 125]
  | d, .obj (m :: ms) =>
    [123, 10] ++ ind (d + 1) ++ dumpMems (d + 1) m ms ++ [10] ++ ind d ++ [125]
termination_by _ j => sizeOf j

/-- Comma-and-newline separated array items (each line carries its own
indentation except the first, whose indentation `dumpVal` emits). -/
def dumpSeq : Nat → JsonVal → List JsonVal → List Nat
  | d, x, [] => dumpVal d x
  | d, x, y :: ys => dumpVal d x ++ [44, 10] ++ ind d ++ dumpSeq d y ys
termination_by _ x xs => sizeOf x + sizeOf xs

/-- Comma-and-newline separated object members, each `"key": value`. -/
def dumpMems : Nat → (List Nat × JsonVal) → List (List Nat × JsonVal) → List Nat
  | d, (k, v), [] => dumpStr k ++ [58, 32] ++ dumpVal d v
  | d, (k, v), m :: ms =>
    dumpStr k ++ [58, 32] ++ dumpVal d v ++ [44, 10] ++ ind d ++ dumpMems d m ms
termination_by _ m ms => sizeOf m + sizeOf ms

end

/-! The parser side of the JSON model. -/

/-- JSON whitespace. -/
def isWs (c : Nat) : Bool := decide (c = 32 ∨ c = 10 ∨ c = 9 ∨ c = 13)

def skipWs : List Nat → List Nat
  | [] => []
  | c :: cs => if isWs c then skipWs cs else c :: cs

def isDigit (c : Nat) : Bool := decide (48 ≤ c ∧ c ≤ 57)

/-- Head of the list is not a decimal digit (so a parsed number cannot run
into it). -/
def digitFree : List Nat → Bool
  | [] => true
  | c :: _ => !isDigit c

/-- Value of a hex digit character. -/
def hexVal (c : Nat) : Option Nat :=
  if 48 ≤ c ∧ c ≤ 57 then some (c - 48)
  else if 97 ≤ c ∧ c ≤ 102 then some (c - 87)
  else if 65 ≤ c ∧ c ≤ 70 then some (c - 55)
  else none

/-- Value of a single-character JSON string escape. -/
def unescape (e : Nat) : Option Nat :=
  if e = 34 then some 34
  else if e = 92 then some 92
  else if e = 47 then some 47
  else if e = 98 then some 8
  else if e = 102 then some 12
  else if e = 110 then some 10
  else if e = 114 then some 13
  else if e = 116 then some 9
  else none

/-- Parse the body of a JSON string literal (after the opening quote) up to
and including the closing quote, returning the code points and the rest of
the input. -/
def parseStrBody : List Nat → Option (List Nat × List Nat)
  | [] => none
  | c :: rest =>
    if c = 34 then some ([], rest)
    else if c = 92 then
      match rest with
      | [] => none
      | e :: rest1 =>
        if e = 117 then
          match rest1 with
          | h1 :: h2 :: h3 :: h4 :: rest2 =>
            match hexVal h1, hexVal h2, hexVal h3, hexVal h4,
                parseStrBody rest2 with
            | some a, some b, some c2, some d2, some (s, r) =>
              some ((a * 4096 + b * 256 + c2 * 16 + d2) :: s, r)
            | _, _, _, _, _ => none
          | _ => none
        else
          match unescape e, parseStrBody rest1 with
          | some cp, some (s, r) => some (cp :: s, r)
          | _, _ => none
    else if c < 32 then none
    else
      match parseStrBody rest with
      | some (s, r) => some (c :: s, r)
      | none => none

/-- Parse a maximal run of decimal digits, accumulating onto `a`. -/
def parseDigits (a : Nat) : List Nat → Nat × List Nat
  | [] => (a, [])
  | c :: cs => if isDigit c then parseDigits (a * 10 + (c - 48)) cs else (a, c :: cs)

mutual

/-- Fueled recursive-descent parser for the JSON fragment of the model
(ints only; no surrogate-pair recombination).  The fuel only bounds the
bracket-nesting recursion; one unit is consumed per nested value. -/
def parseVal : Nat → List Nat → Option (JsonVal × List Nat)
  | 0, _ => none
  | f + 1, s =>
    match skipWs s with
    | [] => none
    | c :: rest =>
      if c = 110 then
        match rest with
        | 117 :: 108 :: 108 :: r => some (.null, r)
        | _ => none
      else if c = 116 then
        match rest with
        | 114 :: 117 :: 101 :: r => some (.bool true, r)
        | _ => none
      else if c = 102 then
        match rest with
        | 97 :: 108 :: 115 :: 101 :: r => some (.bool false, r)
        | _ => none
      else if c = 34 then
        match parseStrBody rest with
        | some (cs, r) => some (.str cs, r)
        | none => none
      else if c = 45 then
        match rest with
        | [] => none
        | d :: ds =>
          if isDigit d then
            let q := parseDigits 0 (d :: ds)
            some (.int (-(q.1 : Int)), q.2)
          else none
      else if isDigit c then
        let q := parseDigits 0 (c :: rest)
        some (.int (q.1 : Int), q.2)
      else if c = 91 then
        match skipWs rest with
        | [] => none
        | c2 :: r2 =>
          if c2 = 93 then some (.arr [], r2)
          else
            match parseItems f (c2 :: r2) with
            | some (vs, r) => some (.arr vs, r)
            | none => none
      else if c = 123 then
        match skipWs rest with
        | [] => none
        | c2 :: r2 =>
          if c2 = 125 then some (.obj [], r2)
          else
            match parseMems f (c2 :: r2) with
            | some (ms, r) => some (.obj ms, r)
            | none => none
      else none

/-- Parse the non-empty item list of an array, consuming the closing `]`. -/
def parseItems : Nat → List Nat → Option (List JsonVal × List Nat)
  | 0, _ => none
  | f + 1, s =>
    match parseVal f s with
    | none => none
    | some (v, r) =>
      match skipWs r with
      | [] => none
      | c :: r2 =>
        if c = 44 then
          match parseItems f r2 with
          | some (vs, r3) => some (v :: vs, r3)
          | none => none
        else if c = 93 then some ([v], r2)
        else none

/-- Parse the non-empty member list of an object, consuming the closing
`}`. -/
def parseMems : Nat → List Nat → Option (List (List Nat × JsonVal) × List Nat)
  | 0, _ => none
  | f + 1, s =>
    match skipWs s with
    | [] => none
    | c :: r =>
      if c = 34 then
        match parseStrBody r with
        | none => none
        | some (k, r1) =>
          match skipWs r1 with
          | [] => none
          | c2 :: r2 =>
            if c2 = 58 then
              match parseVal f r2 with
              | none => none
              | some (v, r3) =>
                match skipWs r3 with
                | [] => none
                | c3 :: r4 =>
                  if c3 = 44 then
                    match parseMems f r4 with
                    | some (ms, r5) => some ((k, v) :: ms, r5)
                    | none => none
                  else if c3 = 125 then some ([(k, v)], r4)
                  else none
            else none
      else none

end

/-- `json.load`: parse a whole document, requiring only trailing whitespace
after the value.  The input length bounds the needed fuel. -/
def parseJson (s : List Nat) : Option JsonVal :=
  match parseVal (s.length + 1) s with
  | some (v, r) => if skipWs r = [] then some v else none
  | none => none

mutual

/-- Fuel sufficient for `parseVal` on the serialized form of a value: one
unit per nested bracket construct (numbers, strings and scalars need a
single unit regardless of size). -/
def jfuel : JsonVal → Nat
  | .null => 1
  | .bool _ => 1
  | .int _ => 1
  | .str _ => 1
  | .arr [] => 1
  | .arr (x :: xs) => 1 + jfuelItems x xs
  | .obj [] => 1
  | .obj (m :: ms) => 1 + jfuelMems m ms
termination_by j => sizeOf j

def jfuelItems : JsonVal → List JsonVal → Nat
  | x, [] => 1 + jfuel x
  | x, y :: ys => 1 + jfuel x + jfuelItems y ys
termination_by x xs => sizeOf x + sizeOf xs

def jfuelMems : (List Nat × JsonVal) → List (List Nat × JsonVal) → Nat
  | (_, v), [] => 1 + jfuel v
  | (_, v), m :: ms => 1 + jfuel v + jfuelMems m ms
termination_by m ms => sizeOf m + sizeOf ms

end

/-! ### `save_json` / `load_json` -/

def jsonSavedMsg (p : String) : List Nat :=
  strBytes "JSON file saved at: " ++ strBytes p

def jsonLoadedMsg (p : String) : List Nat :=
  strBytes "JSON file loaded successfully from: " ++ strBytes p

def jsonLoadErrMsg (p : String) : List Nat :=
  strBytes "Error loading JSON file at " ++ strBytes p

/-- JSON counterpart of `yamlPairElem`: an array element unpacked as a
key-value pair by the `python-box` constructor (string-keyed shape). -/
def jsonPairElem : JsonVal → Option (List Nat × JsonVal)
  | .arr [.str k, v] => some (k, v)
  | _ => none

def jsonArrPairs : List JsonVal → Option (List (List Nat × JsonVal))
  | [] => some []
  | e :: es =>
    match jsonPairElem e, jsonArrPairs es with
    | some p, some ps => some (p :: ps)
    | _, _ => none

/-- `ConfigBox(content)` on a parsed JSON document (`Box.__init__` of
`python-box`, cf. `configBoxOf`): objects are wrapped, strings and other
scalars raise `BoxValueError`, arrays are consumed as key-value pairs and
fail to unpack otherwise. -/
def jsonBoxOf : JsonVal → Except (List Nat) (ConfigBox JsonVal)
  | .obj kvs => .ok ⟨.obj kvs⟩
  | .str _ => .error (strBytes "Cannot extrapolate Box from string")
  | .arr xs =>
    match jsonArrPairs xs with
    | some ps => .ok ⟨.obj ps⟩
    | none => .error (strBytes "not enough values to unpack (expected 2)")
  | _ => .error (strBytes "First argument must be mapping or iterable")

/-- `save_json(path, data)` for a dict `data`: serialize with 4-space
indentation and overwrite the file (OS-level write failures are outside the
model, so the modelled operation always succeeds). -/
def save_json (p : String) (data : List (List Nat × JsonVal)) (fs : FS) :
    FS × List LogEntry :=
  (fs.write p (dumpVal 0 (.obj data)), [⟨.info, jsonSavedMsg p⟩])

/-- `load_json(path)`: both a missing file and a JSON decoding failure are
re-raised as `ValueError`.  As in `read_yaml`, `logger.info` runs before
`return ConfigBox(content)`, and a `BoxValueError` from the constructor
(non-object document) is not caught by the
`except (json.JSONDecodeError, FileNotFoundError)` clause, so it
propagates with its own message after the success log. -/
def load_json (p : String) (fs : FS) :
    Except Err (ConfigBox JsonVal) × List LogEntry :=
  match fs.read p with
  | none => (.error (.valueError (jsonLoadErrMsg p)), [])
  | some c =>
    match parseJson c with
    | none => (.error (.valueError (jsonLoadErrMsg p)), [])
    | some v =>
      match jsonBoxOf v with
      | .ok b => (.ok b, [⟨.info, jsonLoadedMsg p⟩])
      | .error e => (.error (.valueError e), [⟨.info, jsonLoadedMsg p⟩])

/-! ### `save_bin` / `load_bin` -/

def binSavedMsg (p : String) : List Nat :=
  strBytes "Binary file saved at: " ++ strBytes p

def binLoadedMsg (p : String) : List Nat :=
  strBytes "Binary file loaded from: " ++ strBytes p

def binLoadErrMsg (p : String) : List Nat :=
  strBytes "Error loading binary file at " ++ strBytes p

/-- `save_bin(data, path)`, parameterized by the `joblib.dump`
serialization of the artifact type. -/
def save_bin {α : Type} (dump : α → List Nat) (data : α) (p : String)
    (fs : FS) : FS × List LogEntry :=
  (fs.write p (dump data), [⟨.info, binSavedMsg p⟩])

/-- `load_bin(path)`, parameterized by `joblib.load`; every underlying
error (missing file included) is re-raised as `ValueError`. -/
def load_bin {α : Type} (load : List Nat → Except (List Nat) α) (p : String)
    (fs : FS) : Except Err α × List LogEntry :=
  match fs.read p with
  | none => (.error (.valueError (binLoadErrMsg p)), [])
  | some c =>
    match load c with
    | .error _ => (.error (.valueError (binLoadErrMsg p)), [])
    | .ok v => (.ok v, [⟨.info, binLoadedMsg p⟩])

/-! ### `get_size` -/

def sizeNotFoundMsg (p : String) : List Nat :=
  strBytes "File not found: " ++ strBytes p

/-- Python `round(n / 1024)`: round half to even (exact, because `n / 1024`
is exactly representable as a double for any realistic size). -/
def roundKB (n : Nat) : Nat :=
  let q := n / 1024
  let r := n % 1024
  if r < 512 then q
  else if 512 < r then q + 1
  else if q % 2 = 0 then q else q + 1

/-- `get_size(path)`: human-readable size string; no log message is
emitted by this function. -/
def get_size (p : String) (fs : FS) : Except Err String × List LogEntry :=
  match fs.read p with
  | none => (.error (.notFound (sizeNotFoundMsg p)), [])
  | some c => (.ok ("~ " ++ toString (roundKB c.length) ++ " KB"), [])

/-! ### base64 (`decodeImage` / `encodeImageIntoBase64`) -/

/-- Character of the standard base64 alphabet for a sextet. -/
def b64chr (n : Nat) : Nat :=
  if n < 26 then 65 + n
  else if n < 52 then 71 + n
  else if n < 62 then n - 4
  else if n = 62 then 43
  else 47

/-- Sextet of a standard-alphabet base64 character. -/
def b64idx (c : Nat) : Option Nat :=
  if 65 ≤ c ∧ c ≤ 90 then some (c - 65)
  else if 97 ≤ c ∧ c ≤ 122 then some (c - 71)
  else if 48 ≤ c ∧ c ≤ 57 then some (c + 4)
  else if c = 43 then some 62
  else if c = 47 then some 63
  else none

/-- `base64.b64encode` on bytes, producing ASCII characters with `=`
padding. -/
def b64encode : List Nat → List Nat
  | [] => []
  | [x] => [b64chr (x / 4), b64chr (x % 4 * 16), 61, 61]
  | [x, y] => [b64chr (x / 4), b64chr (x % 4 * 16 + y / 16), b64chr (y % 16 * 4), 61]
  | x :: y :: z :: rest =>
    b64chr (x / 4) :: b64chr (x % 4 * 16 + y / 16) ::
    b64chr (y % 16 * 4 + z / 64) :: b64chr (z % 64) :: b64encode rest

def b64ErrMsg : List Nat := strBytes "Invalid base64-encoded string"

/-- `base64.b64decode` on the well-formed quad structure (CPython is more
lenient about junk characters; decoded byte values are identical where both
succeed). -/
def b64decode : List Nat → Except (List Nat) (List Nat)
  | [] => .ok []
  | c1 :: c2 :: c3 :: c4 :: rest =>
    match b64idx c1, b64idx c2 with
    | some a, some b =>
      if c3 = 61 then
        if c4 = 61 then
          if rest = [] then .ok [a * 4 + b / 16] else .error b64ErrMsg
        else .error b64ErrMsg
      else
        match b64idx c3 with
        | some c =>
          if c4 = 61 then
            if rest = [] then .ok [a * 4 + b / 16, b % 16 * 16 + c / 4]
            else .error b64ErrMsg
          else
            match b64idx c4 with
            | some d =>
              match b64decode rest with
              | .ok bs =>
                .ok ((a * 4 + b / 16) :: (b % 16 * 16 + c / 4) :: (c % 4 * 64 + d) :: bs)
              | .error e => .error e
            | none => .error b64ErrMsg
        | none => .error b64ErrMsg
    | _, _ => .error b64ErrMsg
  | _ => .error b64ErrMsg

def imgDecodedMsg (p : String) : List Nat :=
  strBytes "Image decoded and saved at: " ++ strBytes p

def imgDecodeErrMsg : List Nat := strBytes "Error decoding image: " ++ b64ErrMsg

def imgNotFoundMsg (p : String) : List Nat :=
  strBytes "Image file not found: " ++ strBytes p

/-- `decodeImage(imgstring, fileName)`: decode and write the bytes;
any decoding error is re-raised as `ValueError`. -/
def decodeImage (imgstring : List Nat) (fileName : String) (fs : FS) :
    Except Err FS × List LogEntry :=
  match b64decode imgstring with
  | .error _ => (.error (.valueError imgDecodeErrMsg), [])
  | .ok imgdata => (.ok (fs.write fileName imgdata), [⟨.info, imgDecodedMsg fileName⟩])

/-- `encodeImageIntoBase64(croppedImagePath)`: read the file and return its
base64 encoding; no log message is emitted by this function. -/
def encodeImageIntoBase64 (croppedImagePath : String) (fs : FS) :
    Except Err (List Nat) × List LogEntry :=
  match fs.read croppedImagePath with
  | none => (.error (.notFound (imgNotFoundMsg croppedImagePath)), [])
  | some c => (.ok (b64encode c), [])

/-- Result classifier used to state that a call did *not* fail with a
not-found error. -/
def isNotFoundErr {α : Type} : Except Err α → Bool
  | .error (.notFound _) => true
  | _ => false

/-- Result classifier: the call failed with a `ValueError`. -/
def isValueErr {α : Type} : Except Err α → Bool
  | .error (.valueError _) => true
  | _ => false

/-- Result classifier: the call succeeded. -/
def isOkResult {α : Type} : Except Err α → Bool
  | .ok _ => true
  | _ => false

/-! ## Lemmas: filesystem and strings -/

theorem FS.read_write (fs : FS) (p : String) (c : List Nat) :
    (fs.write p c).read p = some c := by
  simp [FS.read, FS.write, List.lookup]

/-! ## Lemmas: whitespace skipping -/

theorem skipWs_not_ws {c : Nat} (h : isWs c = false) (s : List Nat) :
    skipWs (c :: s) = c :: s := by
  simp [skipWs, h]

theorem skipWs_ws {c : Nat} (h : isWs c = true) (s : List Nat) :
    skipWs (c :: s) = skipWs s := by
  simp [skipWs, h]

theorem skipWs_replicate_sp (n : Nat) (s : List Nat) :
    skipWs (List.replicate n 32 ++ s) = skipWs s := by
  induction n with
  | zero => rfl
  | succ k ih => simpa [List.replicate_succ, skipWs, isWs] using ih

theorem skipWs_ind (d : Nat) (s : List Nat) : skipWs (ind d ++ s) = skipWs s :=
  skipWs_replicate_sp _ s

theorem skipWs_nl (s : List Nat) : skipWs (10 :: s) = skipWs s := by
  simp [skipWs, isWs]

theorem parseVal_congr {s t : List Nat} (h : skipWs s = skipWs t) (f : Nat) :
    parseVal f s = parseVal f t := by
  cases f with
  | zero => rfl
  | succ g => simp only [parseVal, h]

theorem parseItems_congr {s t : List Nat} (h : skipWs s = skipWs t) (f : Nat) :
    parseItems f s = parseItems f t := by
  cases f with
  | zero => rfl
  | succ g => simp only [parseItems, parseVal_congr h g]

theorem parseMems_congr {s t : List Nat} (h : skipWs s = skipWs t) (f : Nat) :
    parseMems f s = parseMems f t := by
  cases f with
  | zero => rfl
  | succ g => simp only [parseMems, h]

/-! ## Lemmas: JSON string literals round-trip -/

theorem hexVal_hexDigit {x : Nat} (h : x < 16) : hexVal (hexDigit x) = some x := by
  unfold hexVal hexDigit
  split_ifs <;> first
    | (simp only [Option.some.injEq]; omega)
    | omega

theorem parseStrBody_escCp {cp : Nat} (h : cp < 65536) (t : List Nat) :
    parseStrBody (escCp cp ++ t) =
      (parseStrBody t).map fun q => (cp :: q.1, q.2) := by
  unfold escCp
  split_ifs with h34 h92 h8 h9 h10 h12 h13 hpr
  · subst h34
    cases ht : parseStrBody t <;>
      (unfold parseStrBody; simp [unescape, ht])
  · subst h92
    cases ht : parseStrBody t <;>
      (unfold parseStrBody; simp [unescape, ht])
  · subst h8
    cases ht : parseStrBody t <;>
      (unfold parseStrBody; simp [unescape, ht])
  · subst h9
    cases ht : parseStrBody t <;>
      (unfold parseStrBody; simp [unescape, ht])
  · subst h10
    cases ht : parseStrBody t <;>
      (unfold parseStrBody; simp [unescape, ht])
  · subst h12
    cases ht : parseStrBody t <;>
      (unfold parseStrBody; simp [unescape, ht])
  · subst h13
    cases ht : parseStrBody t <;>
      (unfold parseStrBody; simp [unescape, ht])
  · have h32 : ¬cp < 32 := by omega
    simp only [List.singleton_append]
    cases ht : parseStrBody t <;>
      (unfold parseStrBody; simp [h34, h92, h32, ht])
  · have e1 : hexVal (hexDigit (cp / 4096 % 16)) = some (cp / 4096 % 16) :=
      hexVal_hexDigit (Nat.mod_lt _ (by omega))
    have e2 : hexVal (hexDigit (cp / 256 % 16)) = some (cp / 256 % 16) :=
      hexVal_hexDigit (Nat.mod_lt _ (by omega))
    have e3 : hexVal (hexDigit (cp / 16 % 16)) = some (cp / 16 % 16) :=
      hexVal_hexDigit (Nat.mod_lt _ (by omega))
    have e4 : hexVal (hexDigit (cp % 16)) = some (cp % 16) :=
      hexVal_hexDigit (Nat.mod_lt _ (by omega))
    simp only [List.cons_append, List.nil_append]
    cases ht : parseStrBody t with
    | none =>
      unfold parseStrBody
      simp [e1, e2, e3, e4, ht]
    | some q =>
      unfold parseStrBody
      simp [e1, e2, e3, e4, ht]
      omega

theorem parseStrBody_dumpStr {s : List Nat} (h : wfStr s = true) (rest : List Nat) :
    parseStrBody ((s.map escCp).flatten ++ (34 :: rest)) = some (s, rest) := by
  induction s with
  | nil =>
    unfold parseStrBody
    simp
  | cons cp cs ih =>
    have hcp : cp < 65536 := by
      have := h
      simp [wfStr, List.all_cons] at this
      exact this.1
    have hcs : wfStr cs = true := by
      have := h
      simp [wfStr, List.all_cons] at this
      simpa [wfStr, List.all_eq_true] using this.2
    simp only [List.map_cons, List.flatten_cons, List.append_assoc]
    rw [parseStrBody_escCp hcp, ih hcs]
    rfl

/-! ## Lemmas: decimal literals round-trip -/

theorem isDigit_not_ws {c : Nat} (h : isDigit c = true) : isWs c = false := by
  simp [isDigit] at h
  simp [isWs]
  omega

theorem parseDigits_append {ds : List Nat} (h : ds.all isDigit = true)
    {rest : List Nat} (hr : digitFree rest = true) (a : Nat) :
    parseDigits a (ds ++ rest) = (ds.foldl (fun x c => x * 10 + (c - 48)) a, rest) := by
  induction ds generalizing a with
  | nil =>
    cases rest with
    | nil => simp [parseDigits]
    | cons c t =>
      have hc : isDigit c = false := by
        simpa [digitFree] using hr
      simp [parseDigits, hc]
  | cons c cs ih =>
    have h1 : isDigit c = true := by
      simp [List.all_cons] at h
      exact h.1
    have h2 : cs.all isDigit = true := by
      simp [List.all_cons] at h
      simpa [List.all_eq_true] using h.2
    simp [parseDigits, h1, ih h2]

theorem dumpNat_all_digits (n : Nat) : (dumpNat n).all isDigit = true := by
  unfold dumpNat
  split_ifs with h
  · decide
  · simp only [List.all_eq_true, List.mem_map, List.mem_reverse]
    rintro c ⟨d, hd, rfl⟩
    have : d < 10 := Nat.digits_lt_base (by omega) hd
    simp [isDigit]
    omega

theorem dumpNat_ne_nil (n : Nat) : dumpNat n ≠ [] := by
  unfold dumpNat
  split_ifs with h
  · simp
  · simp [Nat.digits_ne_nil_iff_ne_zero, h]

theorem foldr_digits_eq_ofDigits (l : List Nat) :
    l.foldr (fun d x => x * 10 + d) 0 = Nat.ofDigits 10 l := by
  induction l with
  | nil => simp [Nat.ofDigits]
  | cons d t ih =>
    simp only [List.foldr_cons, ih, Nat.ofDigits_cons]
    ring

theorem dumpNat_foldl (n : Nat) :
    (dumpNat n).foldl (fun x c => x * 10 + (c - 48)) 0 = n := by
  unfold dumpNat
  split_ifs with h
  · simp [h]
  · rw [List.foldl_map, List.foldl_reverse]
    have hstep :
        (fun (x : Nat) (d : Nat) => x * 10 + (48 + d - 48)) =
          fun (x : Nat) (d : Nat) => x * 10 + d := by
      funext x d
      omega
    have hfold :
        (Nat.digits 10 n).foldr (fun d x => x * 10 + (48 + d - 48)) 0 =
          (Nat.digits 10 n).foldr (fun d x => x * 10 + d) 0 := by
      congr 1
      funext d x
      omega
    rw [hfold, foldr_digits_eq_ofDigits]
    exact_mod_cast Nat.ofDigits_digits 10 n

theorem parseDigits_dumpNat (n : Nat) {rest : List Nat}
    (hr : digitFree rest = true) :
    parseDigits 0 (dumpNat n ++ rest) = (n, rest) := by
  rw [parseDigits_append (dumpNat_all_digits n) hr, dumpNat_foldl]

theorem parseVal_dumpInt (g : Nat) (i : Int) {rest : List Nat}
    (hr : digitFree rest = true) :
    parseVal (g + 1) (dumpInt i ++ rest) = some (.int i, rest) := by
  unfold dumpInt
  split_ifs with hneg
  · rcases hd : dumpNat i.natAbs with _ | ⟨c, t⟩
    · exact absurd hd (dumpNat_ne_nil _)
    · have hall := dumpNat_all_digits i.natAbs
      rw [hd] at hall
      have hc : isDigit c = true := by
        simp only [List.all_cons, Bool.and_eq_true] at hall
        exact hall.1
      have hcb : 48 ≤ c ∧ c ≤ 57 := by simpa [isDigit] using hc
      have hq : parseDigits 0 (c :: (t ++ rest)) = (i.natAbs, rest) := by
        have := parseDigits_dumpNat i.natAbs hr
        rw [hd] at this
        simpa [List.cons_append] using this
      have hiv : -((i.natAbs : Nat) : Int) = i := by omega
      simp only [List.cons_append]
      unfold parseVal
      rw [skipWs_not_ws (by simp [isWs])]
      simp [hc, hq, hiv]
      rw [abs_of_neg hneg]
      ring
  · rcases hd : dumpNat i.natAbs with _ | ⟨c, t⟩
    · exact absurd hd (dumpNat_ne_nil _)
    · have hall := dumpNat_all_digits i.natAbs
      rw [hd] at hall
      have hc : isDigit c = true := by
        simp only [List.all_cons, Bool.and_eq_true] at hall
        exact hall.1
      have hcb : 48 ≤ c ∧ c ≤ 57 := by simpa [isDigit] using hc
      have hq : parseDigits 0 (c :: (t ++ rest)) = (i.natAbs, rest) := by
        have := parseDigits_dumpNat i.natAbs hr
        rw [hd] at this
        simpa [List.cons_append] using this
      have hiv : ((i.natAbs : Nat) : Int) = i := by omega
      simp only [List.cons_append]
      unfold parseVal
      rw [skipWs_not_ws (isDigit_not_ws hc)]
      have c110 : ¬c = 110 := by omega
      have c116 : ¬c = 116 := by omega
      have c102 : ¬c = 102 := by omega
      have c34 : ¬c = 34 := by omega
      have c45 : ¬c = 45 := by omega
      simp [c110, c116, c102, c34, c45, hc, hq, hiv]

theorem parseVal_dumpStr (g : Nat) {s : List Nat} (h : wfStr s = true)
    (rest : List Nat) :
    parseVal (g + 1) (dumpStr s ++ rest) = some (.str s, rest) := by
  unfold dumpStr
  simp only [List.cons_append, List.nil_append, List.append_assoc]
  unfold parseVal
  rw [skipWs_not_ws (by simp [isWs])]
  simp [parseStrBody_dumpStr h rest]

/-! ## Lemmas: shape of serialized output and fuel positivity -/

theorem jfuel_pos (j : JsonVal) : 1 ≤ jfuel j := by
  cases j with
  | arr xs => cases xs <;> simp [jfuel]
  | obj ms => cases ms <;> simp [jfuel]
  | _ => simp [jfuel]

theorem jfuelItems_pos (x : JsonVal) (xs : List JsonVal) : 1 ≤ jfuelItems x xs := by
  cases xs with
  | nil => simp [jfuelItems]
  | cons y ys =>
    simp [jfuelItems]
    omega

theorem jfuelMems_pos (m : List Nat × JsonVal) (ms : List (List Nat × JsonVal)) :
    1 ≤ jfuelMems m ms := by
  obtain ⟨k, v⟩ := m
  cases ms with
  | nil => simp [jfuelMems]
  | cons m2 ms2 =>
    simp [jfuelMems]
    omega

theorem dumpVal_head (d : Nat) (j : JsonVal) :
    ∃ c t, dumpVal d j = c :: t ∧ isWs c = false ∧ c ≠ 93 ∧ c ≠ 125 := by
  cases j with
  | null =>
    exact ⟨110, [117, 108, 108], by simp [dumpVal], by decide, by decide, by decide⟩
  | bool b =>
    cases b with
    | false =>
      exact ⟨102, [97, 108, 115, 101], by simp [dumpVal], by decide, by decide, by decide⟩
    | true =>
      exact ⟨116, [114, 117, 101], by simp [dumpVal], by decide, by decide, by decide⟩
  | int i =>
    simp only [dumpVal]
    unfold dumpInt
    split_ifs with hneg
    · exact ⟨45, _, rfl, by decide, by decide, by decide⟩
    · rcases hd : dumpNat i.natAbs with _ | ⟨c, t⟩
      · exact absurd hd (dumpNat_ne_nil _)
      · have hall := dumpNat_all_digits i.natAbs
        rw [hd] at hall
        have hc : isDigit c = true := by
          simp only [List.all_cons, Bool.and_eq_true] at hall
          exact hall.1
        have hcb : 48 ≤ c ∧ c ≤ 57 := by simpa [isDigit] using hc
        exact ⟨c, t, rfl, isDigit_not_ws hc, by omega, by omega⟩
  | str s =>
    exact ⟨34, (s.map escCp).flatten ++ [34], by simp [dumpVal, dumpStr],
      by decide, by decide, by decide⟩
  | arr xs =>
    cases xs with
    | nil => exact ⟨91, [93], by simp [dumpVal], by decide, by decide, by decide⟩
    | cons x xs2 =>
      exact ⟨91, 10 :: (ind (d + 1) ++ (dumpSeq (d + 1) x xs2 ++ 10 :: (ind d ++ [93]))),
        by simp [dumpVal], by decide, by decide, by decide⟩
  | obj ms =>
    cases ms with
    | nil => exact ⟨123, [125], by simp [dumpVal], by decide, by decide, by decide⟩
    | cons m ms2 =>
      exact ⟨123, 10 :: (ind (d + 1) ++ (dumpMems (d + 1) m ms2 ++ 10 :: (ind d ++ [125]))),
        by simp [dumpVal], by decide, by decide, by decide⟩

theorem dumpSeq_eq (d : Nat) (x : JsonVal) (xs : List JsonVal) :
    ∃ u, dumpSeq d x xs = dumpVal d x ++ u := by
  cases xs with
  | nil => exact ⟨[], by simp [dumpSeq]⟩
  | cons y ys =>
    exact ⟨44 :: 10 :: (ind d ++ dumpSeq d y ys), by simp [dumpSeq]⟩

theorem dumpMems_eq (d : Nat) (k : List Nat) (v : JsonVal)
    (ms : List (List Nat × JsonVal)) :
    ∃ u, dumpMems d (k, v) ms = dumpStr k ++ ([58, 32] ++ u) := by
  cases ms with
  | nil => exact ⟨dumpVal d v, by simp [dumpMems]⟩
  | cons m ms2 =>
    exact ⟨dumpVal d v ++ 44 :: 10 :: (ind d ++ dumpMems d m ms2), by simp [dumpMems]⟩

theorem dumpSeqT_head (d : Nat) (x : JsonVal) (xs : List JsonVal) (t : List Nat) :
    ∃ c r, dumpSeq d x xs ++ t = c :: r ∧ isWs c = false ∧ c ≠ 93 ∧ c ≠ 125 := by
  obtain ⟨u, hu⟩ := dumpSeq_eq d x xs
  obtain ⟨c0, t0, hct, hws, h93, h125⟩ := dumpVal_head d x
  refine ⟨c0, t0 ++ (u ++ t), ?_, hws, h93, h125⟩
  rw [hu, hct]
  simp

theorem dumpMemsT_head (d : Nat) (k : List Nat) (v : JsonVal)
    (ms : List (List Nat × JsonVal)) (t : List Nat) :
    ∃ r, dumpMems d (k, v) ms ++ t = 34 :: r := by
  obtain ⟨u, hu⟩ := dumpMems_eq d k v ms
  refine ⟨(k.map escCp).flatten ++ (34 :: (58 :: (32 :: (u ++ t)))), ?_⟩
  rw [hu]
  simp [dumpStr]

/-- Round-trip of the modelled `json.dump` / `json.load` pair, by induction
on the parser fuel: parsing the serialization of a well-formed value at any
depth, followed by a non-digit delimiter, succeeds and returns exactly the
value. -/
theorem parse_dump_master : ∀ f : Nat,
    (∀ j d rest, WFb j = true → jfuel j < f → digitFree rest = true →
      parseVal f (dumpVal d j ++ rest) = some (j, rest)) ∧
    (∀ x xs d dc rest, WFb x = true → WFbItems xs = true →
      jfuelItems x xs < f → digitFree rest = true →
      parseItems f (dumpSeq d x xs ++ (10 :: (ind dc ++ (93 :: rest)))) =
        some (x :: xs, rest)) ∧
    (∀ k v ms d dc rest, wfStr k = true → WFb v = true → WFbMems ms = true →
      jfuelMems (k, v) ms < f → digitFree rest = true →
      parseMems f (dumpMems d (k, v) ms ++ (10 :: (ind dc ++ (125 :: rest)))) =
        some ((k, v) :: ms, rest)) := by
  intro f
  induction f with
  | zero =>
    refine ⟨fun j d rest _ hf _ => absurd hf (Nat.not_lt_zero _),
      fun x xs d dc rest _ _ hf _ => absurd hf (Nat.not_lt_zero _),
      fun k v ms d dc rest _ _ _ hf _ => absurd hf (Nat.not_lt_zero _)⟩
  | succ g ih =>
    obtain ⟨ihV, ihI, ihM⟩ := ih
    refine ⟨?_, ?_, ?_⟩
    · -- parseVal on dumpVal
      intro j d rest wf hf hrest
      cases j with
      | null =>
        simp only [dumpVal, List.cons_append]
        unfold parseVal
        rw [skipWs_not_ws (by decide)]
        simp
      | bool b =>
        cases b with
        | false =>
          simp only [dumpVal, List.cons_append]
          unfold parseVal
          rw [skipWs_not_ws (by decide)]
          simp
        | true =>
          simp only [dumpVal, List.cons_append]
          unfold parseVal
          rw [skipWs_not_ws (by decide)]
          simp
      | int i =>
        simp only [dumpVal]
        exact parseVal_dumpInt g i hrest
      | str s =>
        have hs : wfStr s = true := by simpa [WFb] using wf
        simp only [dumpVal]
        exact parseVal_dumpStr g hs rest
      | arr xs =>
        cases xs with
        | nil =>
          simp only [dumpVal, List.cons_append]
          unfold parseVal
          rw [skipWs_not_ws (by decide)]
          simp [isDigit, skipWs_not_ws (show isWs 93 = false from by decide)]
        | cons x xs2 =>
          simp only [WFb, WFbItems, Bool.and_eq_true] at wf
          obtain ⟨hwf1, hwf2⟩ := wf
          simp only [jfuel] at hf
          have hfa : jfuelItems x xs2 < g := by omega
          simp only [dumpVal, List.append_assoc, List.cons_append,
            List.nil_append]
          obtain ⟨c0, r0, heq, hws0, h93, h125⟩ :=
            dumpSeqT_head (d + 1) x xs2 (10 :: (ind d ++ (93 :: rest)))
          have hI := ihI x xs2 (d + 1) d rest hwf1 hwf2 hfa hrest
          rw [heq] at hI
          have hskip :
              skipWs (10 :: (ind (d + 1) ++
                (dumpSeq (d + 1) x xs2 ++ (10 :: (ind d ++ (93 :: rest)))))) =
                c0 :: r0 := by
            rw [skipWs_nl, skipWs_ind, heq, skipWs_not_ws hws0]
          unfold parseVal
          rw [skipWs_not_ws (by decide)]
          simp [isDigit, hskip, h93, hI]
      | obj ms =>
        cases ms with
        | nil =>
          simp only [dumpVal, List.cons_append]
          unfold parseVal
          rw [skipWs_not_ws (by decide)]
          simp [isDigit, skipWs_not_ws (show isWs 125 = false from by decide)]
        | cons m ms2 =>
          obtain ⟨k, v⟩ := m
          simp only [WFb, WFbMems, Bool.and_eq_true] at wf
          obtain ⟨-, ⟨hk, hv⟩, hms⟩ := wf
          simp only [jfuel] at hf
          have hfm : jfuelMems (k, v) ms2 < g := by omega
          simp only [dumpVal, List.append_assoc, List.cons_append,
            List.nil_append]
          obtain ⟨r0, heq⟩ :=
            dumpMemsT_head (d + 1) k v ms2 (10 :: (ind d ++ (125 :: rest)))
          have hM := ihM k v ms2 (d + 1) d rest hk hv hms hfm hrest
          rw [heq] at hM
          have hskip :
              skipWs (10 :: (ind (d + 1) ++
                (dumpMems (d + 1) (k, v) ms2 ++ (10 :: (ind d ++ (125 :: rest)))))) =
                34 :: r0 := by
            rw [skipWs_nl, skipWs_ind, heq, skipWs_not_ws (by decide)]
          unfold parseVal
          rw [skipWs_not_ws (by decide)]
          simp [isDigit, hskip, hM]
    · -- parseItems on dumpSeq
      intro x xs d dc rest hwfx hwfxs hf hrest
      cases xs with
      | nil =>
        simp only [jfuelItems] at hf
        have hfx : jfuel x < g := by omega
        have hV := ihV x d (10 :: (ind dc ++ (93 :: rest))) hwfx hfx rfl
        simp only [dumpSeq]
        unfold parseItems
        rw [hV]
        simp [skipWs_nl, skipWs_ind,
          skipWs_not_ws (show isWs 93 = false from by decide)]
      | cons y ys =>
        simp only [WFbItems, Bool.and_eq_true] at hwfxs
        obtain ⟨hwfy, hwfys⟩ := hwfxs
        simp only [jfuelItems] at hf
        have hpx := jfuel_pos x
        have hpy := jfuelItems_pos y ys
        have hfx : jfuel x < g := by omega
        have hfy : jfuelItems y ys < g := by omega
        have hV := ihV x d
          (44 :: (10 :: (ind d ++
            (dumpSeq d y ys ++ (10 :: (ind dc ++ (93 :: rest)))))))
          hwfx hfx rfl
        have hcongr :
            parseItems g (10 :: (ind d ++
              (dumpSeq d y ys ++ (10 :: (ind dc ++ (93 :: rest)))))) =
            parseItems g (dumpSeq d y ys ++ (10 :: (ind dc ++ (93 :: rest)))) :=
          parseItems_congr (by rw [skipWs_nl, skipWs_ind]) g
        simp only [dumpSeq, List.append_assoc, List.cons_append, List.nil_append]
        unfold parseItems
        rw [hV]
        simp [skipWs_not_ws (show isWs 44 = false from by decide), hcongr,
          ihI y ys d dc rest hwfy hwfys hfy hrest]
    · -- parseMems on dumpMems
      intro k v ms d dc rest hk hv hms hf hrest
      cases ms with
      | nil =>
        simp only [jfuelMems] at hf
        have hfv : jfuel v < g := by omega
        have hV := ihV v d (10 :: (ind dc ++ (125 :: rest))) hv hfv rfl
        have hcongr :
            parseVal g (32 :: (dumpVal d v ++ (10 :: (ind dc ++ (125 :: rest))))) =
            parseVal g (dumpVal d v ++ (10 :: (ind dc ++ (125 :: rest)))) :=
          parseVal_congr (skipWs_ws (by decide) _) g
        simp only [dumpMems, dumpStr, List.append_assoc, List.cons_append,
          List.nil_append]
        unfold parseMems
        rw [skipWs_not_ws (by decide)]
        simp [parseStrBody_dumpStr hk, hcongr, hV, skipWs_nl, skipWs_ind,
          skipWs_not_ws (show isWs 58 = false from by decide),
          skipWs_not_ws (show isWs 125 = false from by decide)]
      | cons m2 ms2 =>
        obtain ⟨k2, v2⟩ := m2
        simp only [WFbMems, Bool.and_eq_true] at hms
        obtain ⟨⟨hk2, hv2⟩, hms2⟩ := hms
        simp only [jfuelMems] at hf
        have hpv := jfuel_pos v
        have hpm := jfuelMems_pos (k2, v2) ms2
        have hfv : jfuel v < g := by omega
        have hfm : jfuelMems (k2, v2) ms2 < g := by omega
        have hV := ihV v d
          (44 :: (10 :: (ind d ++
            (dumpMems d (k2, v2) ms2 ++ (10 :: (ind dc ++ (125 :: rest)))))))
          hv hfv rfl
        have hcongrV :
            parseVal g (32 :: (dumpVal d v ++
              (44 :: (10 :: (ind d ++
                (dumpMems d (k2, v2) ms2 ++ (10 :: (ind dc ++ (125 :: rest))))))))) =
            parseVal g (dumpVal d v ++
              (44 :: (10 :: (ind d ++
                (dumpMems d (k2, v2) ms2 ++ (10 :: (ind dc ++ (125 :: rest)))))))) :=
          parseVal_congr (skipWs_ws (by decide) _) g
        have hcongrM :
            parseMems g (10 :: (ind d ++
              (dumpMems d (k2, v2) ms2 ++ (10 :: (ind dc ++ (125 :: rest)))))) =
            parseMems g (dumpMems d (k2, v2) ms2 ++ (10 :: (ind dc ++ (125 :: rest)))) :=
          parseMems_congr (by rw [skipWs_nl, skipWs_ind]) g
        simp only [dumpMems, dumpStr, List.append_assoc, List.cons_append,
          List.nil_append]
        unfold parseMems
        rw [skipWs_not_ws (by decide)]
        simp [parseStrBody_dumpStr hk, hcongrV, hcongrM, hV,
          skipWs_not_ws (show isWs 58 = false from by decide),
          skipWs_not_ws (show isWs 44 = false from by decide),
          ihM k2 v2 ms2 d dc rest hk2 hv2 hms2 hfm hrest]

theorem dumpNat_len_pos (n : Nat) : 1 ≤ (dumpNat n).length :=
  List.length_pos.mpr (dumpNat_ne_nil n)

/-- The fuel needed by the parser never exceeds the length of the
serialized output (one unit per opening construct, each of which occupies
at least one byte). -/
theorem jfuel_le_dumpLen : ∀ n : Nat,
    (∀ j, sizeOf j ≤ n → ∀ d, jfuel j ≤ (dumpVal d j).length) ∧
    (∀ x xs, sizeOf x + sizeOf xs ≤ n →
      ∀ d, jfuelItems x xs ≤ (dumpSeq d x xs).length + 1) ∧
    (∀ (m : List Nat × JsonVal) ms, sizeOf m + sizeOf ms ≤ n →
      ∀ d, jfuelMems m ms ≤ (dumpMems d m ms).length + 1) := by
  intro n
  induction n with
  | zero =>
    refine ⟨fun j h => absurd h ?_, fun x xs h => absurd h ?_,
      fun m ms h => absurd h ?_⟩
    · cases j <;> simp
    · have : 1 ≤ sizeOf x := by cases x <;> simp <;> omega
      omega
    · have : 1 ≤ sizeOf ms := by cases ms <;> simp <;> omega
      omega
  | succ nn ih =>
    obtain ⟨ihV, ihI, ihM⟩ := ih
    refine ⟨?_, ?_, ?_⟩
    · intro j hj d
      cases j with
      | null => simp [jfuel, dumpVal]
      | bool b => cases b <;> simp [jfuel, dumpVal]
      | int i =>
        have := dumpNat_len_pos i.natAbs
        simp only [jfuel, dumpVal]
        unfold dumpInt
        split_ifs <;> simp <;> omega
      | str s => simp [jfuel, dumpVal, dumpStr]
      | arr xs =>
        cases xs with
        | nil => simp [jfuel, dumpVal]
        | cons x xs2 =>
          have hs : sizeOf x + sizeOf xs2 ≤ nn := by
            have := hj
            simp at this
            omega
          have := ihI x xs2 hs (d + 1)
          simp only [jfuel, dumpVal]
          simp [ind]
          omega
      | obj ms =>
        cases ms with
        | nil => simp [jfuel, dumpVal]
        | cons m ms2 =>
          have hs : sizeOf m + sizeOf ms2 ≤ nn := by
            have := hj
            simp at this
            omega
          have := ihM m ms2 hs (d + 1)
          simp only [jfuel, dumpVal]
          simp [ind]
          omega
    · intro x xs hxs d
      cases xs with
      | nil =>
        have hx : sizeOf x ≤ nn := by
          have := hxs
          simp at this
          omega
        have := ihV x hx d
        simp only [jfuelItems, dumpSeq]
        omega
      | cons y ys =>
        have hx : sizeOf x ≤ nn := by
          have h1 : 1 ≤ sizeOf y := by cases y <;> simp <;> omega
          have h2 : 1 ≤ sizeOf ys := by cases ys <;> simp <;> omega
          simp at hxs
          omega
        have hys : sizeOf y + sizeOf ys ≤ nn := by
          have h0 : 1 ≤ sizeOf x := by cases x <;> simp <;> omega
          simp at hxs
          omega
        have h1 := ihV x hx d
        have h2 := ihI y ys hys d
        simp only [jfuelItems, dumpSeq]
        simp [ind]
        omega
    · intro m ms hms d
      obtain ⟨k, v⟩ := m
      cases ms with
      | nil =>
        have hv : sizeOf v ≤ nn := by
          simp at hms
          omega
        have := ihV v hv d
        simp only [jfuelMems, dumpMems]
        simp [dumpStr]
        omega
      | cons m2 ms2 =>
        have hv : sizeOf v ≤ nn := by
          have h1 : 1 ≤ sizeOf m2 := by cases m2 <;> simp <;> omega
          have h2 : 1 ≤ sizeOf ms2 := by cases ms2 <;> simp <;> omega
          simp at hms
          omega
        have hm2 : sizeOf m2 + sizeOf ms2 ≤ nn := by
          have h0 : 1 ≤ sizeOf v := by cases v <;> simp <;> omega
          have h1 : 1 ≤ sizeOf k := by cases k <;> simp <;> omega
          simp at hms
          omega
        have h1 := ihV v hv d
        have h2 := ihM m2 ms2 hm2 d
        simp only [jfuelMems, dumpMems]
        simp [dumpStr, ind]
        omega

/-- `json.load` applied to the exact bytes `json.dump(indent=4)` wrote
recovers the value. -/
theorem parseJson_dump {j : JsonVal} (wf : WFb j = true) :
    parseJson (dumpVal 0 j) = some j := by
  have hf : jfuel j < (dumpVal 0 j).length + 1 := by
    have := (jfuel_le_dumpLen (sizeOf j)).1 j le_rfl 0
    omega
  have h := (parse_dump_master ((dumpVal 0 j).length + 1)).1 j 0 [] wf hf rfl
  rw [List.append_nil] at h
  unfold parseJson
  rw [h]
  simp [skipWs]

/-! ## Lemmas: base64 round-trip -/

theorem b64idx_chr_all : ∀ n, n < 64 → b64idx (b64chr n) = some n := by decide

theorem b64idx_chr {n : Nat} (h : n < 64) : b64idx (b64chr n) = some n :=
  b64idx_chr_all n h

theorem b64chr_ne_61_all : ∀ n, n < 64 → b64chr n ≠ 61 := by decide

theorem b64chr_ne_61 {n : Nat} (h : n < 64) : b64chr n ≠ 61 :=
  b64chr_ne_61_all n h

theorem b64idx_lt {c a : Nat} (h : b64idx c = some a) : a < 64 := by
  unfold b64idx at h
  split_ifs at h <;> simp at h <;> omega

/-- Decoding, then re-encoding, then decoding again is the first decoding:
the byte content a base64 string denotes is preserved by
re-canonicalization. -/
theorem b64_roundtrip_aux :
    ∀ n (s b : List Nat), s.length ≤ n → b64decode s = Except.ok b →
      b64decode (b64encode b) = Except.ok b := by
  intro n
  induction n with
  | zero =>
    intro s b hl hdec
    have hs : s = [] := List.eq_nil_of_length_eq_zero (Nat.le_zero.mp hl)
    subst hs
    simp [b64decode] at hdec
    subst hdec
    simp [b64encode, b64decode]
  | succ k ih =>
    intro s b hl hdec
    rcases s with _ | ⟨c1, _ | ⟨c2, _ | ⟨c3, _ | ⟨c4, rest⟩⟩⟩⟩
    · simp [b64decode] at hdec
      subst hdec
      simp [b64encode, b64decode]
    · simp [b64decode] at hdec
    · simp [b64decode] at hdec
    · simp [b64decode] at hdec
    · unfold b64decode at hdec
      split at hdec
      · rename_i a b2 h1 h2
        have ha := b64idx_lt h1
        have hb := b64idx_lt h2
        split at hdec
        · -- c3 is padding
          split at hdec
          · -- c4 is padding
            split at hdec
            · -- rest empty: one decoded byte
              simp only [Except.ok.injEq] at hdec
              subst hdec
              simp only [b64encode]
              unfold b64decode
              rw [b64idx_chr (show (a * 4 + b2 / 16) / 4 < 64 by omega),
                b64idx_chr (show (a * 4 + b2 / 16) % 4 * 16 < 64 by omega)]
              simp only [if_pos rfl]
              simp
              omega
            · simp at hdec
          · simp at hdec
        · -- c3 is a data character
          split at hdec
          · rename_i c h3
            have hc := b64idx_lt h3
            split at hdec
            · -- c4 is padding
              split at hdec
              · -- rest empty: two decoded bytes
                simp only [Except.ok.injEq] at hdec
                subst hdec
                have k1 : b64idx (b64chr ((a * 4 + b2 / 16) / 4)) =
                    some ((a * 4 + b2 / 16) / 4) := b64idx_chr (by omega)
                have k2 : b64idx (b64chr ((a * 4 + b2 / 16) % 4 * 16 +
                      (b2 % 16 * 16 + c / 4) / 16)) =
                    some ((a * 4 + b2 / 16) % 4 * 16 +
                      (b2 % 16 * 16 + c / 4) / 16) := b64idx_chr (by omega)
                have k3 : b64chr ((b2 % 16 * 16 + c / 4) % 16 * 4) ≠ 61 :=
                  b64chr_ne_61 (by omega)
                have k4 : b64idx (b64chr ((b2 % 16 * 16 + c / 4) % 16 * 4)) =
                    some ((b2 % 16 * 16 + c / 4) % 16 * 4) := b64idx_chr (by omega)
                simp only [b64encode]
                unfold b64decode
                simp [k1, k2, k3, k4]
                omega
              · simp at hdec
            · -- c4 is a data character: three decoded bytes and recursion
              split at hdec
              · rename_i e h4
                have he := b64idx_lt h4
                split at hdec
                · rename_i bs hr
                  simp only [Except.ok.injEq] at hdec
                  subst hdec
                  have hrec : b64decode (b64encode bs) = Except.ok bs := by
                    apply ih rest bs _ hr
                    simp at hl
                    omega
                  have k1 : b64idx (b64chr ((a * 4 + b2 / 16) / 4)) =
                      some ((a * 4 + b2 / 16) / 4) := b64idx_chr (by omega)
                  have k2 : b64idx (b64chr ((a * 4 + b2 / 16) % 4 * 16 +
                        (b2 % 16 * 16 + c / 4) / 16)) =
                      some ((a * 4 + b2 / 16) % 4 * 16 +
                        (b2 % 16 * 16 + c / 4) / 16) := b64idx_chr (by omega)
                  have k5 : b64chr ((b2 % 16 * 16 + c / 4) % 16 * 4 +
                      (c % 4 * 64 + e) / 64) ≠ 61 := b64chr_ne_61 (by omega)
                  have k6 : b64idx (b64chr ((b2 % 16 * 16 + c / 4) % 16 * 4 +
                        (c % 4 * 64 + e) / 64)) =
                      some ((b2 % 16 * 16 + c / 4) % 16 * 4 +
                        (c % 4 * 64 + e) / 64) := b64idx_chr (by omega)
                  have k7 : b64chr ((c % 4 * 64 + e) % 64) ≠ 61 :=
                    b64chr_ne_61 (by omega)
                  have k8 : b64idx (b64chr ((c % 4 * 64 + e) % 64)) =
                      some ((c % 4 * 64 + e) % 64) := b64idx_chr (by omega)
                  simp only [b64encode]
                  unfold b64decode
                  simp [k1, k2, k5, k6, k7, k8, hrec]
                  omega
                · simp at hdec
              · simp at hdec
          · simp at hdec
      · simp at hdec

/-! ## Lemmas: directory creation is idempotent -/

theorem dirInsert_mem {ds : List String} {d : String} (h : d ∈ ds) :
    dirInsert ds d = ds := by
  simp [dirInsert, h]

theorem mem_dirInsert {ds : List String} {x : String} (h : x ∈ ds) (d : String) :
    x ∈ dirInsert ds d := by
  unfold dirInsert
  split_ifs <;> simp [h]

theorem mem_foldl_dirInsert {ds : List String} {x : String} (h : x ∈ ds)
    (l : List String) : x ∈ l.foldl dirInsert ds := by
  induction l generalizing ds with
  | nil => exact h
  | cons a t ih => exact ih (mem_dirInsert h a)

theorem self_mem_dirInsert (ds : List String) (d : String) :
    d ∈ dirInsert ds d := by
  unfold dirInsert
  split_ifs with h
  · exact h
  · simp

theorem mem_of_mem_foldl_dirInsert {x : String} (l : List String)
    (ds : List String) (h : x ∈ l) : x ∈ l.foldl dirInsert ds := by
  induction l generalizing ds with
  | nil => cases h
  | cons a t ih =>
    rcases List.mem_cons.mp h with rfl | hx
    · exact mem_foldl_dirInsert (self_mem_dirInsert ds x) t
    · exact ih (dirInsert ds a) hx

theorem foldl_dirInsert_of_subset {l ds : List String}
    (h : ∀ x ∈ l, x ∈ ds) : l.foldl dirInsert ds = ds := by
  induction l with
  | nil => rfl
  | cons a t ih =>
    have ha : a ∈ ds := h a (by simp)
    rw [List.foldl_cons, dirInsert_mem ha]
    exact ih fun x hx => h x (by simp [hx])

theorem mem_mkdirAll {ds : List String} {x : String} (h : x ∈ ds) (p : String) :
    x ∈ mkdirAll ds p :=
  mem_foldl_dirInsert h _

theorem prefixes_mem_mkdirAll (ds : List String) (p : String) :
    ∀ x ∈ pathPrefixes p, x ∈ mkdirAll ds p := fun _ hx =>
  mem_of_mem_foldl_dirInsert _ ds hx

theorem mkdirAll_of_prefixes_present {ds : List String} {p : String}
    (h : ∀ x ∈ pathPrefixes p, x ∈ ds) : mkdirAll ds p = ds :=
  foldl_dirInsert_of_subset h

theorem mem_foldl_mkdirAll {ds : List String} {x : String} (h : x ∈ ds)
    (l : List String) : x ∈ l.foldl mkdirAll ds := by
  induction l generalizing ds with
  | nil => exact h
  | cons a t ih => exact ih (mem_mkdirAll h a)

theorem prefixes_mem_foldl_mkdirAll (paths : List String) (ds : List String) :
    ∀ p ∈ paths, ∀ x ∈ pathPrefixes p, x ∈ paths.foldl mkdirAll ds := by
  induction paths generalizing ds with
  | nil => intro p hp; cases hp
  | cons q t ih =>
    intro p hp x hx
    rcases List.mem_cons.mp hp with rfl | hp2
    · rw [List.foldl_cons]
      exact mem_foldl_mkdirAll (prefixes_mem_mkdirAll ds p x hx) t
    · exact ih (mkdirAll ds q) p hp2 x hx

theorem foldl_mkdirAll_idem (paths : List String) (ds : List String)
    (h : ∀ p ∈ paths, ∀ x ∈ pathPrefixes p, x ∈ ds) :
    paths.foldl mkdirAll ds = ds := by
  induction paths with
  | nil => rfl
  | cons q t ih =>
    rw [List.foldl_cons, mkdirAll_of_prefixes_present (h q (by simp))]
    exact ih fun p hp x hx => h p (by simp [hp]) x hx

theorem create_directories_dirs (paths : List String) (verbose : Bool)
    (fs : FS) :
    (create_directories paths verbose fs).1.dirs = paths.foldl mkdirAll fs.dirs := by
  unfold create_directories
  suffices h : ∀ (st : FS × List LogEntry),
      (paths.foldl
        (fun st p =>
          ({ st.1 with dirs := mkdirAll st.1.dirs p },
            st.2 ++ if verbose then [⟨.info, mkdirMsg p⟩] else [])) st).1.dirs =
        paths.foldl mkdirAll st.1.dirs by
    exact h (fs, [])
  induction paths with
  | nil => intro st; rfl
  | cons q t ih => intro st; exact ih _

/-! ## Claim theorems -/

/-- C1: for every JSON-serializable mapping `data` (modelled domain:
well-formed object) and every path, `load_json` after `save_json` returns a
mapping equal to `data`. -/
theorem save_json_load_json_roundtrip (p : String) (fs : FS)
    (data : List (List Nat × JsonVal)) (wf : WFb (JsonVal.obj data) = true) :
    (load_json p (save_json p data fs).1).1 =
      Except.ok (ConfigBox.mk (JsonVal.obj data)) := by
  have h1 : (save_json p data fs).1 = fs.write p (dumpVal 0 (.obj data)) := rfl
  rw [h1]
  unfold load_json
  simp [FS.read_write, parseJson_dump wf, jsonBoxOf]

theorem save_json_load_json_roundtrip_witness :
    (load_json "out.json" (save_json "out.json"
        [(strBytes "a", JsonVal.int 1),
         (strBytes "b", JsonVal.arr [JsonVal.int 1, JsonVal.int 2, JsonVal.int 3])]
        (FS.mk [] [])).1).1 =
      Except.ok (ConfigBox.mk (JsonVal.obj
        [(strBytes "a", JsonVal.int 1),
         (strBytes "b", JsonVal.arr [JsonVal.int 1, JsonVal.int 2, JsonVal.int 3])])) :=
  save_json_load_json_roundtrip "out.json" (FS.mk [] []) _ (by decide)

/-- C2: decoding a base64 string to a file and re-encoding that file yields
a base64 string denoting the same bytes as the original string. -/
theorem decodeImage_encodeImage_roundtrip (s : List Nat) (p : String) (fs : FS)
    (b : List Nat) (hs : b64decode s = Except.ok b) :
    (decodeImage s p fs).1 = Except.ok (fs.write p b) ∧
    (encodeImageIntoBase64 p (fs.write p b)).1 = Except.ok (b64encode b) ∧
    b64decode (b64encode b) = b64decode s := by
  refine ⟨?_, ?_, ?_⟩
  · unfold decodeImage
    rw [hs]
  · unfold encodeImageIntoBase64
    rw [FS.read_write]
  · rw [hs]
    exact b64_roundtrip_aux s.length s b le_rfl hs

theorem decodeImage_encodeImage_roundtrip_witness :
    (decodeImage [97, 87, 49, 110] "img.jpg" (FS.mk [] [])).1 =
      Except.ok ((FS.mk [] []).write "img.jpg" [105, 109, 103]) ∧
    (encodeImageIntoBase64 "img.jpg"
        ((FS.mk [] []).write "img.jpg" [105, 109, 103])).1 =
      Except.ok (b64encode [105, 109, 103]) ∧
    b64decode (b64encode [105, 109, 103]) = b64decode [97, 87, 49, 110] :=
  decodeImage_encodeImage_roundtrip [97, 87, 49, 110] "img.jpg" (FS.mk [] [])
    [105, 109, 103] rfl

/-- C3 counterexample: a file containing the valid, non-empty YAML scalar
`7` makes `read_yaml` fail rather than succeed — `return ConfigBox(content)`
raises `BoxValueError` ("First argument must be mapping or iterable") for a
non-mapping document, refuting "for every existing file whose content is
valid YAML and parses to non-empty content, read_yaml succeeds". -/
theorem read_yaml_truthy_nonmapping_raises :
    isOkResult (read_yaml (fun _ => Except.ok (some (YamlVal.int 7))) "n.yaml"
        (FS.mk [("n.yaml", [55])] [])).1 = false ∧
    (read_yaml (fun _ => Except.ok (some (YamlVal.int 7))) "n.yaml"
        (FS.mk [("n.yaml", [55])] [])).1 =
      Except.error (Err.valueError
        (strBytes "First argument must be mapping or iterable")) :=
  ⟨rfl, rfl⟩

/-- C3 (amended): on an existing file whose valid YAML content parses to a
non-empty mapping, `read_yaml` succeeds with a `ConfigBox` whose key access
and attribute access both equal lookup in the parsed document. -/
theorem read_yaml_valid_mapping
    (parse : List Nat → Except (List Nat) (Option YamlVal)) (p : String)
    (fs : FS) (c : List Nat) (kvs : List (List Nat × YamlVal))
    (hf : fs.read p = some c)
    (hp : parse c = Except.ok (some (YamlVal.map kvs))) (hne : kvs ≠ []) :
    (read_yaml parse p fs).1 = Except.ok (ConfigBox.mk (YamlVal.map kvs)) ∧
    (∀ k, (ConfigBox.mk (YamlVal.map kvs)).getKey k =
      yamlGet (YamlVal.map kvs) k) ∧
    (∀ k, (ConfigBox.mk (YamlVal.map kvs)).getAttr k =
      yamlGet (YamlVal.map kvs) k) := by
  refine ⟨?_, fun k => rfl, fun k => rfl⟩
  have hv : pyFalsy (YamlVal.map kvs) = false := by
    cases kvs with
    | nil => exact absurd rfl hne
    | cons m ms => rfl
  unfold read_yaml
  simp [hf, hp, hv, configBoxOf]

theorem read_yaml_valid_mapping_witness :
    (read_yaml (fun _ => Except.ok (some (YamlVal.map [(strBytes "k", YamlVal.int 7)])))
        "cfg.yaml" (FS.mk [("cfg.yaml", [104])] [])).1 =
      Except.ok (ConfigBox.mk (YamlVal.map [(strBytes "k", YamlVal.int 7)])) ∧
    (∀ k, (ConfigBox.mk (YamlVal.map [(strBytes "k", YamlVal.int 7)])).getKey k =
      yamlGet (YamlVal.map [(strBytes "k", YamlVal.int 7)]) k) ∧
    (∀ k, (ConfigBox.mk (YamlVal.map [(strBytes "k", YamlVal.int 7)])).getAttr k =
      yamlGet (YamlVal.map [(strBytes "k", YamlVal.int 7)]) k) :=
  read_yaml_valid_mapping _ "cfg.yaml" _ [104] [(strBytes "k", YamlVal.int 7)]
    rfl rfl (List.cons_ne_nil _ _)

/-- C4: on an existing file whose YAML content is empty or a null document,
`read_yaml` fails with the `ValueError` "is empty" message and never
returns a value. -/
theorem read_yaml_empty_or_null_fails
    (parse : List Nat → Except (List Nat) (Option YamlVal)) (p : String)
    (fs : FS) (c : List Nat) (hf : fs.read p = some c)
    (hp : parse c = Except.ok none ∨ parse c = Except.ok (some YamlVal.null)) :
    (read_yaml parse p fs).1 = Except.error (Err.valueError (yamlEmptyMsg p)) := by
  unfold read_yaml
  rcases hp with hp | hp <;> simp [hf, hp, pyFalsy]

theorem read_yaml_empty_or_null_fails_witness :
    (read_yaml (fun _ => Except.ok none) "empty.yaml"
        (FS.mk [("empty.yaml", [])] [])).1 =
      Except.error (Err.valueError (yamlEmptyMsg "empty.yaml")) :=
  read_yaml_empty_or_null_fails _ "empty.yaml" _ [] rfl (Or.inl rfl)

/-- C5 counterexample: `get_size` succeeds on an existing file yet emits no
log message at all, contradicting "every operation emits exactly one
informational message" — the source of `get_size` contains no logging
call. -/
theorem get_size_succeeds_without_logging :
    (get_size "img.png" (FS.mk [("img.png", [7])] [])).1 = Except.ok "~ 0 KB" ∧
    (get_size "img.png" (FS.mk [("img.png", [7])] [])).2 = [] :=
  ⟨rfl, rfl⟩

/-- C5 (amended): `read_yaml`, `save_json`, `load_json`, `save_bin`,
`load_bin` and `decodeImage` emit, on success, exactly one info-level
message containing the path (`create_directories` one per path when
verbose), while `get_size` and `encodeImageIntoBase64` emit no log message
at all. -/
theorem success_logging_amended :
    (∀ parse p fs c v, FS.read fs p = some c → parse c = Except.ok (some v) →
      pyFalsy v = false →
      (read_yaml parse p fs).2 = [⟨LogLevel.info, yamlLoadedMsg p⟩] ∧
      ∃ pre post, yamlLoadedMsg p = pre ++ strBytes p ++ post) ∧
    (∀ p data fs, (save_json p data fs).2 = [⟨LogLevel.info, jsonSavedMsg p⟩] ∧
      ∃ pre post, jsonSavedMsg p = pre ++ strBytes p ++ post) ∧
    (∀ p fs c v, FS.read fs p = some c → parseJson c = some v →
      (load_json p fs).2 = [⟨LogLevel.info, jsonLoadedMsg p⟩] ∧
      ∃ pre post, jsonLoadedMsg p = pre ++ strBytes p ++ post) ∧
    (∀ (α : Type) (dump : α → List Nat) (data : α) p fs,
      (save_bin dump data p fs).2 = [⟨LogLevel.info, binSavedMsg p⟩] ∧
      ∃ pre post, binSavedMsg p = pre ++ strBytes p ++ post) ∧
    (∀ (α : Type) (load : List Nat → Except (List Nat) α) p fs c v,
      FS.read fs p = some c → load c = Except.ok v →
      (load_bin load p fs).2 = [⟨LogLevel.info, binLoadedMsg p⟩] ∧
      ∃ pre post, binLoadedMsg p = pre ++ strBytes p ++ post) ∧
    (∀ s p fs b, b64decode s = Except.ok b →
      (decodeImage s p fs).2 = [⟨LogLevel.info, imgDecodedMsg p⟩] ∧
      ∃ pre post, imgDecodedMsg p = pre ++ strBytes p ++ post) ∧
    (∀ p fs, (create_directories [p] true fs).2 = [⟨LogLevel.info, mkdirMsg p⟩] ∧
      ∃ pre post, mkdirMsg p = pre ++ strBytes p ++ post) ∧
    (∀ p fs, (get_size p fs).2 = []) ∧
    (∀ p fs, (encodeImageIntoBase64 p fs).2 = []) := by
  refine ⟨?_, ?_, ?_, ?_, ?_, ?_, ?_, ?_, ?_⟩
  · intro parse p fs c v hf hp hv
    refine ⟨?_, strBytes "YAML file: ", strBytes " loaded successfully", rfl⟩
    unfold read_yaml
    rcases hbox : configBoxOf v with e | b <;> simp [hf, hp, hv, hbox]
  · intro p data fs
    exact ⟨rfl, strBytes "JSON file saved at: ", [], by simp [jsonSavedMsg]⟩
  · intro p fs c v hf hp
    refine ⟨?_, strBytes "JSON file loaded successfully from: ", [],
      by simp [jsonLoadedMsg]⟩
    unfold load_json
    rcases hbox : jsonBoxOf v with e | b <;> simp [hf, hp, hbox]
  · intro α dump data p fs
    exact ⟨rfl, strBytes "Binary file saved at: ", [], by simp [binSavedMsg]⟩
  · intro α load p fs c v hf hl
    refine ⟨?_, strBytes "Binary file loaded from: ", [], by simp [binLoadedMsg]⟩
    unfold load_bin
    simp [hf, hl]
  · intro s p fs b hs
    refine ⟨?_, strBytes "Image decoded and saved at: ", [],
      by simp [imgDecodedMsg]⟩
    unfold decodeImage
    simp [hs]
  · intro p fs
    exact ⟨rfl, strBytes "Created directory at: ", [], by simp [mkdirMsg]⟩
  · intro p fs
    unfold get_size
    cases FS.read fs p <;> rfl
  · intro p fs
    unfold encodeImageIntoBase64
    cases FS.read fs p <;> rfl

theorem success_logging_amended_witness :
    ((read_yaml (fun _ => Except.ok (some (YamlVal.int 7))) "c.yaml"
        (FS.mk [("c.yaml", [104])] [])).2 =
      [⟨LogLevel.info, yamlLoadedMsg "c.yaml"⟩] ∧
      ∃ pre post, yamlLoadedMsg "c.yaml" = pre ++ strBytes "c.yaml" ++ post) ∧
    (get_size "m.bin" (FS.mk [("m.bin", [7])] [])).2 = [] :=
  ⟨success_logging_amended.1 (fun _ => Except.ok (some (YamlVal.int 7)))
      "c.yaml" (FS.mk [("c.yaml", [104])] []) [104] (YamlVal.int 7) rfl rfl rfl,
    success_logging_amended.2.2.2.2.2.2.2.1 "m.bin" (FS.mk [("m.bin", [7])] [])⟩

/-- C6 counterexample: `load_json` on a nonexistent path fails with
`ValueError`, not with a not-found error (the code catches
`FileNotFoundError` and re-raises it as `ValueError`). -/
theorem load_json_missing_not_notfound :
    isValueErr (load_json "cfg.json" (FS.mk [] [])).1 = true ∧
    isNotFoundErr (load_json "cfg.json" (FS.mk [] [])).1 = false :=
  ⟨rfl, rfl⟩

/-- C6 (amended): on a nonexistent path, `read_yaml`, `get_size` and
`encodeImageIntoBase64` fail with `FileNotFoundError` while `load_json` and
`load_bin` fail with `ValueError`; none returns a default or empty
value. -/
theorem nonexistent_path_errors (p : String) (fs : FS)
    (h : FS.read fs p = none)
    (parse : List Nat → Except (List Nat) (Option YamlVal))
    (α : Type) (load : List Nat → Except (List Nat) α) :
    (read_yaml parse p fs).1 = Except.error (Err.notFound (yamlNotFoundMsg p)) ∧
    (get_size p fs).1 = Except.error (Err.notFound (sizeNotFoundMsg p)) ∧
    (encodeImageIntoBase64 p fs).1 =
      Except.error (Err.notFound (imgNotFoundMsg p)) ∧
    (load_json p fs).1 = Except.error (Err.valueError (jsonLoadErrMsg p)) ∧
    (load_bin load p fs).1 = Except.error (Err.valueError (binLoadErrMsg p)) := by
  unfold read_yaml get_size encodeImageIntoBase64 load_json load_bin
  rw [h]
  exact ⟨rfl, rfl, rfl, rfl, rfl⟩

theorem nonexistent_path_errors_witness :
    (read_yaml (fun _ => Except.ok none) "x.yaml" (FS.mk [] [])).1 =
      Except.error (Err.notFound (yamlNotFoundMsg "x.yaml")) ∧
    (get_size "x.yaml" (FS.mk [] [])).1 =
      Except.error (Err.notFound (sizeNotFoundMsg "x.yaml")) ∧
    (encodeImageIntoBase64 "x.yaml" (FS.mk [] [])).1 =
      Except.error (Err.notFound (imgNotFoundMsg "x.yaml")) ∧
    (load_json "x.yaml" (FS.mk [] [])).1 =
      Except.error (Err.valueError (jsonLoadErrMsg "x.yaml")) ∧
    (load_bin (fun _ => Except.ok ()) "x.yaml" (FS.mk [] [])).1 =
      Except.error (Err.valueError (binLoadErrMsg "x.yaml")) :=
  nonexistent_path_errors "x.yaml" (FS.mk [] []) rfl
    (fun _ => Except.ok none) Unit (fun _ => Except.ok ())

/-- C7: `load_json` fails with `ValueError` both when the file does not
exist and when the file content is not valid JSON. -/
theorem load_json_valueError_cases (p : String) (fs : FS) :
    (FS.read fs p = none →
      (load_json p fs).1 = Except.error (Err.valueError (jsonLoadErrMsg p))) ∧
    (∀ c, FS.read fs p = some c → parseJson c = none →
      (load_json p fs).1 = Except.error (Err.valueError (jsonLoadErrMsg p))) := by
  constructor
  · intro h
    unfold load_json
    rw [h]
  · intro c hc hp
    unfold load_json
    simp [hc, hp]

theorem load_json_valueError_cases_witness :
    (load_json "missing.json" (FS.mk [] [])).1 =
      Except.error (Err.valueError (jsonLoadErrMsg "missing.json")) ∧
    (load_json "bad.json" (FS.mk [("bad.json", [123])] [])).1 =
      Except.error (Err.valueError (jsonLoadErrMsg "bad.json")) :=
  ⟨(load_json_valueError_cases "missing.json" (FS.mk [] [])).1 rfl,
   (load_json_valueError_cases "bad.json" (FS.mk [("bad.json", [123])] [])).2
      [123] rfl rfl⟩

/-- C8: `create_directories` is idempotent — a second run over the same
paths leaves exactly the directories the first run left (and, in the model,
cannot fail). -/
theorem create_directories_idempotent (paths : List String) (verbose : Bool)
    (fs : FS) :
    (create_directories paths verbose
        (create_directories paths verbose fs).1).1.dirs =
      (create_directories paths verbose fs).1.dirs := by
  rw [create_directories_dirs, create_directories_dirs]
  exact foldl_mkdirAll_idem paths _ (prefixes_mem_foldl_mkdirAll paths fs.dirs)

/-- C9: `get_size` returns "~ 2 KB" for a file of exactly 2048 bytes and
"~ 0 KB" for a file of exactly one byte. -/
theorem get_size_sizes (p : String) (fs : FS) (c : List Nat)
    (hf : FS.read fs p = some c) :
    (c.length = 2048 → (get_size p fs).1 = Except.ok "~ 2 KB") ∧
    (c.length = 1 → (get_size p fs).1 = Except.ok "~ 0 KB") := by
  constructor
  · intro h
    unfold get_size
    rw [hf]
    show Except.ok ("~ " ++ toString (roundKB c.length) ++ " KB") = Except.ok "~ 2 KB"
    rw [h]
    rfl
  · intro h
    unfold get_size
    rw [hf]
    show Except.ok ("~ " ++ toString (roundKB c.length) ++ " KB") = Except.ok "~ 0 KB"
    rw [h]
    rfl

theorem get_size_sizes_witness :
    (get_size "model.h5" (FS.mk [("model.h5", List.replicate 2048 0)] [])).1 =
      Except.ok "~ 2 KB" ∧
    (get_size "tiny.bin" (FS.mk [("tiny.bin", [7])] [])).1 = Except.ok "~ 0 KB" :=
  ⟨(get_size_sizes "model.h5" (FS.mk [("model.h5", List.replicate 2048 0)] [])
      (List.replicate 2048 0) rfl).1 (List.length_replicate 2048 0),
   (get_size_sizes "tiny.bin" (FS.mk [("tiny.bin", [7])] []) [7] rfl).2 rfl⟩

/-- C10: on an existing file whose YAML content parses to any falsy value
(the scalar 0, false, the empty string, an empty sequence or an empty
mapping), `read_yaml` raises the `ValueError` with the "is empty" message
rather than returning that value. -/
theorem read_yaml_falsy_fails
    (parse : List Nat → Except (List Nat) (Option YamlVal)) (p : String)
    (fs : FS) (c : List Nat) (v : YamlVal) (hf : fs.read p = some c)
    (hp : parse c = Except.ok (some v))
    (hfalsy : v = YamlVal.int 0 ∨ v = YamlVal.bool false ∨
      v = YamlVal.str [] ∨ v = YamlVal.seq [] ∨ v = YamlVal.map []) :
    (read_yaml parse p fs).1 = Except.error (Err.valueError (yamlEmptyMsg p)) ∧
    ∃ pre, yamlEmptyMsg p = pre ++ strBytes "empty" := by
  constructor
  · unfold read_yaml
    rcases hfalsy with rfl | rfl | rfl | rfl | rfl <;> simp [hf, hp, pyFalsy]
  · refine ⟨strBytes "YAML file at " ++ strBytes p ++ strBytes " is ", ?_⟩
    have h : strBytes " is empty" = strBytes " is " ++ strBytes "empty" := by decide
    simp [yamlEmptyMsg, h]

theorem read_yaml_falsy_fails_witness :
    (read_yaml (fun _ => Except.ok (some (YamlVal.int 0))) "zero.yaml"
        (FS.mk [("zero.yaml", [48])] [])).1 =
      Except.error (Err.valueError (yamlEmptyMsg "zero.yaml")) ∧
    ∃ pre, yamlEmptyMsg "zero.yaml" = pre ++ strBytes "empty" :=
  read_yaml_falsy_fails _ "zero.yaml" _ [48] (YamlVal.int 0) rfl rfl
    (Or.inl rfl)
